import Mathlib

/-!
Shallow embedding of haproxy's file-descriptor state machine
(include/proto/fd.h) and of the uxst listener full/drain logic
(src/proto_uxst.c), together with theorems checking the
natural-language specification against it.

The per-FD `state` field is an `unsigned char`; it is embedded as a
`Nat` kept below 256, with the C bit operations written out with
`&&&`, `|||`, `^^^` on `Nat`.  The model is single-threaded and
quiescent: the CAS loop of every transition primitive succeeds on its
first iteration, which is exactly the behaviour between two primitive
calls with no concurrent interference.
-/

/-- Modelled from the spec: the numeric values of the `FD_EV_*` state
bits come from `types/fd.h`, which is not among the provided sources.
The spec fixes the layout: low nibble = read direction, high nibble =
write direction; within each nibble bit 0 is POLLED, bit 1 is READY,
bit 2 is ACTIVE. -/
def FD_EV_POLLED_R : Nat := 1

def FD_EV_READY_R : Nat := 2

def FD_EV_ACTIVE_R : Nat := 4

def FD_EV_POLLED_W : Nat := 16

def FD_EV_READY_W : Nat := 32

def FD_EV_ACTIVE_W : Nat := 64

def FD_EV_POLLED_RW : Nat := FD_EV_POLLED_R ||| FD_EV_POLLED_W

def FD_EV_READY_RW : Nat := FD_EV_READY_R ||| FD_EV_READY_W

def FD_EV_ACTIVE_RW : Nat := FD_EV_ACTIVE_R ||| FD_EV_ACTIVE_W

/-- Modelled from the spec: the `FD_POLL_*` event-bitmap bits come from
`types/fd.h`, which is not among the provided sources.  The spec names
the events IN/OUT/ERR/HUP and says ERR and HUP are the sticky bits. -/
def FD_POLL_IN : Nat := 1

def FD_POLL_OUT : Nat := 4

def FD_POLL_ERR : Nat := 8

def FD_POLL_HUP : Nat := 16

def FD_POLL_STICKY : Nat := FD_POLL_ERR ||| FD_POLL_HUP

/-- Truncated bitwise complement: `(unsigned char)~m` for a mask `m`
that fits in a byte, as used by the `new &= ~FD_EV_...` statements. -/
def compl8 (m : Nat) : Nat := 255 ^^^ m

/-- Per-FD fields of `struct fdtab` that the claims are about.  The
pointer fields (`owner`, `iocb`) and the close-path advisory flags
play no role in any claim and are omitted.  `update_bit` is the
calling thread's bit of the FD's `update_mask`; `inCache` is
membership of the FD in its ready-cache list. -/
structure FdEntry where
  state : Nat
  ev : Nat
  thread_mask : Nat
  update_bit : Bool
  inCache : Bool
deriving DecidableEq

/-- Single-FD, single-thread engine state: the FD table entry, the
calling thread's update list `fd_updt` with its counter `fd_nbupdt`,
plus ghost counters recording how many times `updt_fd_polling`,
`fd_may_recv` and `fd_may_send` were invoked (they instrument the
"calls X exactly when ..." sentences of the spec and have no effect
on the embedded data). -/
structure Eng where
  fd : FdEntry
  fd_updt : List Nat
  fd_nbupdt : Nat
  updtCalls : Nat
  mayRecvCalls : Nat
  maySendCalls : Nat
deriving DecidableEq

/-- Engine state for a freshly zeroed FD slot. -/
def eng0 : Eng :=
  { fd := { state := 0, ev := 0, thread_mask := 0, update_bit := false, inCache := false }
    fd_updt := [], fd_nbupdt := 0, updtCalls := 0, mayRecvCalls := 0, maySendCalls := 0 }

/-- Model of `updt_fd_polling(fd)`: test-and-set the thread's `update_mask` bit;
only the first setter appends `fd` to `fd_updt` and bumps `fd_nbupdt`.
The ghost counter `updtCalls` counts every invocation. -/
def updt_fd_polling (n : Nat) (e : Eng) : Eng :=
  let e := { e with updtCalls := e.updtCalls + 1 }
  if e.fd.update_bit then e
  else { e with fd := { e.fd with update_bit := true },
                fd_updt := e.fd_updt ++ [n],
                fd_nbupdt := e.fd_nbupdt + 1 }

/-- Condition of `fd_update_cache`: one direction has both READY and
ACTIVE set. -/
def fd_cache_needed (s : Nat) : Bool :=
  (s &&& (FD_EV_READY_R ||| FD_EV_ACTIVE_R) == (FD_EV_READY_R ||| FD_EV_ACTIVE_R)) ||
  (s &&& (FD_EV_READY_W ||| FD_EV_ACTIVE_W) == (FD_EV_READY_W ||| FD_EV_ACTIVE_W))

/-- Model of `fd_update_cache(fd)`: allocate a cache entry when one direction is
both READY and ACTIVE, release it otherwise. -/
def fd_update_cache (e : Eng) : Eng :=
  { e with fd := { e.fd with inCache := fd_cache_needed e.fd.state } }

/-- Common tail of every CAS-loop primitive: commit the new state word,
call `updt_fd_polling` when the `pollMask` bits changed, then
`fd_update_cache` under the per-FD lock. -/
def casTail (n : Nat) (old nw pollMask : Nat) (e : Eng) : Eng :=
  let e1 := { e with fd := { e.fd with state := nw } }
  let e2 := if (old ^^^ nw) &&& pollMask ≠ 0 then updt_fd_polling n e1 else e1
  fd_update_cache e2

/-- New-state computation of `fd_want_recv` (body of its CAS loop). -/
def want_recv_new (old : Nat) : Nat :=
  let x := old ||| FD_EV_ACTIVE_R
  if x &&& FD_EV_READY_R = 0 then x ||| FD_EV_POLLED_R else x

/-- Model of `fd_want_recv(fd)`. -/
def fd_want_recv (n : Nat) (e : Eng) : Eng :=
  if e.fd.state &&& FD_EV_ACTIVE_R ≠ 0 then e
  else casTail n e.fd.state (want_recv_new e.fd.state) FD_EV_POLLED_R e

/-- New-state computation of `fd_want_send`. -/
def want_send_new (old : Nat) : Nat :=
  let x := old ||| FD_EV_ACTIVE_W
  if x &&& FD_EV_READY_W = 0 then x ||| FD_EV_POLLED_W else x

/-- Model of `fd_want_send(fd)`. -/
def fd_want_send (n : Nat) (e : Eng) : Eng :=
  if e.fd.state &&& FD_EV_ACTIVE_W ≠ 0 then e
  else casTail n e.fd.state (want_send_new e.fd.state) FD_EV_POLLED_W e

/-- New-state computation of `fd_stop_recv`. -/
def stop_recv_new (old : Nat) : Nat :=
  (old &&& compl8 FD_EV_ACTIVE_R) &&& compl8 FD_EV_POLLED_R

/-- Model of `fd_stop_recv(fd)`. -/
def fd_stop_recv (n : Nat) (e : Eng) : Eng :=
  if e.fd.state &&& FD_EV_ACTIVE_R = 0 then e
  else casTail n e.fd.state (stop_recv_new e.fd.state) FD_EV_POLLED_R e

/-- New-state computation of `fd_stop_send`. -/
def stop_send_new (old : Nat) : Nat :=
  (old &&& compl8 FD_EV_ACTIVE_W) &&& compl8 FD_EV_POLLED_W

/-- Model of `fd_stop_send(fd)`. -/
def fd_stop_send (n : Nat) (e : Eng) : Eng :=
  if e.fd.state &&& FD_EV_ACTIVE_W = 0 then e
  else casTail n e.fd.state (stop_send_new e.fd.state) FD_EV_POLLED_W e

/-- New-state computation of `fd_stop_both`. -/
def stop_both_new (old : Nat) : Nat :=
  (old &&& compl8 FD_EV_ACTIVE_RW) &&& compl8 FD_EV_POLLED_RW

/-- Model of `fd_stop_both(fd)`. -/
def fd_stop_both (n : Nat) (e : Eng) : Eng :=
  if e.fd.state &&& FD_EV_ACTIVE_RW = 0 then e
  else casTail n e.fd.state (stop_both_new e.fd.state) FD_EV_POLLED_RW e

/-- New-state computation of `fd_cant_recv`. -/
def cant_recv_new (old : Nat) : Nat :=
  let x := old &&& compl8 FD_EV_READY_R
  if x &&& FD_EV_ACTIVE_R ≠ 0 then x ||| FD_EV_POLLED_R else x

/-- Model of `fd_cant_recv(fd)`. -/
def fd_cant_recv (n : Nat) (e : Eng) : Eng :=
  if e.fd.state &&& FD_EV_READY_R = 0 then e
  else casTail n e.fd.state (cant_recv_new e.fd.state) FD_EV_POLLED_R e

/-- New-state computation of `fd_cant_send`. -/
def cant_send_new (old : Nat) : Nat :=
  let x := old &&& compl8 FD_EV_READY_W
  if x &&& FD_EV_ACTIVE_W ≠ 0 then x ||| FD_EV_POLLED_W else x

/-- Model of `fd_cant_send(fd)`. -/
def fd_cant_send (n : Nat) (e : Eng) : Eng :=
  if e.fd.state &&& FD_EV_READY_W = 0 then e
  else casTail n e.fd.state (cant_send_new e.fd.state) FD_EV_POLLED_W e

/-- New-state computation of `fd_done_recv`. -/
def done_recv_new (old : Nat) : Nat :=
  let x := old &&& compl8 FD_EV_READY_R
  if x &&& FD_EV_ACTIVE_R ≠ 0 then x ||| FD_EV_POLLED_R else x

/-- Model of `fd_done_recv(fd)`: only acts when both POLLED_R and READY_R are
set. -/
def fd_done_recv (n : Nat) (e : Eng) : Eng :=
  if e.fd.state &&& (FD_EV_POLLED_R ||| FD_EV_READY_R) ≠ (FD_EV_POLLED_R ||| FD_EV_READY_R) then e
  else casTail n e.fd.state (done_recv_new e.fd.state) FD_EV_POLLED_R e

/-- Model of `fd_may_recv(fd)`: atomically OR in READY_R (never touches the
polled bit), then reconcile the cache.  Never calls
`updt_fd_polling`. -/
def fd_may_recv (_n : Nat) (e : Eng) : Eng :=
  let e := { e with mayRecvCalls := e.mayRecvCalls + 1 }
  let e := { e with fd := { e.fd with state := e.fd.state ||| FD_EV_READY_R } }
  fd_update_cache e

/-- Model of `fd_may_send(fd)`: atomically OR in READY_W, then reconcile the
cache. -/
def fd_may_send (_n : Nat) (e : Eng) : Eng :=
  let e := { e with maySendCalls := e.maySendCalls + 1 }
  let e := { e with fd := { e.fd with state := e.fd.state ||| FD_EV_READY_W } }
  fd_update_cache e

/-- Model of `fd_insert(fd, owner, iocb, thread_mask)`: resets `ev`, clears the
calling thread's `update_mask` bit and installs the thread mask.  It
does not touch the state word or the cache. -/
def fd_insert (thread_mask : Nat) (e : Eng) : Eng :=
  { e with fd := { e.fd with ev := 0, update_bit := false, thread_mask := thread_mask } }

/-- Model of `fd_update_events(fd, evts)`: keep only the sticky event bits of
`ev`, OR in the reported events, then run `fd_may_recv` when
IN/HUP/ERR is reported and `fd_may_send` when OUT/ERR is reported. -/
def fd_update_events (n : Nat) (evts : Nat) (e : Eng) : Eng :=
  let e1 := { e with fd := { e.fd with ev := (e.fd.ev &&& FD_POLL_STICKY) ||| evts } }
  let e2 := if e1.fd.ev &&& (FD_POLL_IN ||| FD_POLL_HUP ||| FD_POLL_ERR) ≠ 0 then fd_may_recv n e1 else e1
  if e2.fd.ev &&& (FD_POLL_OUT ||| FD_POLL_ERR) ≠ 0 then fd_may_send n e2 else e2

/-- The ten state-transition primitives of `proto/fd.h`. -/
inductive Prim where
  | want_recv
  | stop_recv
  | may_recv
  | cant_recv
  | done_recv
  | want_send
  | stop_send
  | may_send
  | cant_send
  | stop_both
deriving DecidableEq

/-- Run one primitive on FD number `n`. -/
def applyPrim (p : Prim) (n : Nat) (e : Eng) : Eng :=
  match p with
  | .want_recv => fd_want_recv n e
  | .stop_recv => fd_stop_recv n e
  | .may_recv => fd_may_recv n e
  | .cant_recv => fd_cant_recv n e
  | .done_recv => fd_done_recv n e
  | .want_send => fd_want_send n e
  | .stop_send => fd_stop_send n e
  | .may_send => fd_may_send n e
  | .cant_send => fd_cant_send n e
  | .stop_both => fd_stop_both n e

/-- Run a sequence of primitives on FD number `n`. -/
def runPrims (ps : List Prim) (n : Nat) (e : Eng) : Eng :=
  ps.foldl (fun a p => applyPrim p n a) e

/-- Pure effect of a primitive on the packed state word alone. -/
def stTrans (p : Prim) (s : Nat) : Nat :=
  match p with
  | .want_recv => if s &&& FD_EV_ACTIVE_R ≠ 0 then s else want_recv_new s
  | .stop_recv => if s &&& FD_EV_ACTIVE_R = 0 then s else stop_recv_new s
  | .may_recv => s ||| FD_EV_READY_R
  | .cant_recv => if s &&& FD_EV_READY_R = 0 then s else cant_recv_new s
  | .done_recv => if s &&& (FD_EV_POLLED_R ||| FD_EV_READY_R) ≠ (FD_EV_POLLED_R ||| FD_EV_READY_R) then s else done_recv_new s
  | .want_send => if s &&& FD_EV_ACTIVE_W ≠ 0 then s else want_send_new s
  | .stop_send => if s &&& FD_EV_ACTIVE_W = 0 then s else stop_send_new s
  | .may_send => s ||| FD_EV_READY_W
  | .cant_send => if s &&& FD_EV_READY_W = 0 then s else cant_send_new s
  | .stop_both => if s &&& FD_EV_ACTIVE_RW = 0 then s else stop_both_new s

/-- Sanity check matching the spec's scenario 1: `want_recv` on a fresh
FD yields state `POLLED_R|ACTIVE_R` with one update-list entry. -/
theorem sanity_scenario_one :
    (fd_want_recv 7 eng0).fd.state = 5 ∧ (fd_want_recv 7 eng0).fd_updt = [7] := by decide

/-- Sanity check matching the spec's scenario 2: after `want_recv` the
poller reports readiness, giving `POLLED_R|ACTIVE_R|READY_R` and a
cached FD. -/
theorem sanity_scenario_two :
    (runPrims [Prim.want_recv, Prim.may_recv] 7 eng0).fd.state = 7 ∧
      (runPrims [Prim.want_recv, Prim.may_recv] 7 eng0).fd.inCache = true := by decide

/-- Read-direction half of the spec's invariant 1:
`POLLED_R ⇒ ACTIVE_R ∧ ¬READY_R`. -/
def invR (s : Nat) : Bool :=
  s &&& FD_EV_POLLED_R == 0 || (s &&& FD_EV_ACTIVE_R != 0 && s &&& FD_EV_READY_R == 0)

/-- Write-direction half of the spec's invariant 1:
`POLLED_W ⇒ ACTIVE_W ∧ ¬READY_W`. -/
def invW (s : Nat) : Bool :=
  s &&& FD_EV_POLLED_W == 0 || (s &&& FD_EV_ACTIVE_W != 0 && s &&& FD_EV_READY_W == 0)

/-- The full invariant of claim C1 as the spec states it. -/
def fdInv (s : Nat) : Bool := invR s && invW s

/-- Weaker invariant that the code actually maintains:
`POLLED ⇒ ACTIVE` in both directions (the spec's invariant 3). -/
def invPA (s : Nat) : Bool :=
  (s &&& FD_EV_POLLED_R == 0 || s &&& FD_EV_ACTIVE_R != 0) &&
  (s &&& FD_EV_POLLED_W == 0 || s &&& FD_EV_ACTIVE_W != 0)

set_option maxRecDepth 4096 in
theorem stTrans_bound (p : Prim) : ∀ s, s < 256 → stTrans p s < 256 := by
  cases p <;> decide

set_option maxRecDepth 4096 in
theorem stTrans_invPA (p : Prim) : ∀ s, s < 256 → invPA s = true → invPA (stTrans p s) = true := by
  cases p <;> decide

set_option maxRecDepth 4096 in
theorem stTrans_invR (p : Prim) (hp : p ≠ Prim.may_recv) :
    ∀ s, s < 256 → invR s = true → invR (stTrans p s) = true := by
  cases p <;> first | exact absurd rfl hp | decide

set_option maxRecDepth 4096 in
theorem stTrans_invW (p : Prim) (hp : p ≠ Prim.may_send) :
    ∀ s, s < 256 → invW s = true → invW (stTrans p s) = true := by
  cases p <;> first | exact absurd rfl hp | decide

theorem updt_fd_polling_state (n : Nat) (e : Eng) :
    (updt_fd_polling n e).fd.state = e.fd.state := by
  simp only [updt_fd_polling]
  split <;> rfl

theorem fd_update_cache_state (e : Eng) :
    (fd_update_cache e).fd.state = e.fd.state := rfl

theorem casTail_state (n old nw pollMask : Nat) (e : Eng) :
    (casTail n old nw pollMask e).fd.state = nw := by
  simp only [casTail, fd_update_cache_state]
  split
  · simp [updt_fd_polling_state]
  · rfl

theorem applyPrim_state (p : Prim) (n : Nat) (e : Eng) :
    (applyPrim p n e).fd.state = stTrans p e.fd.state := by
  cases p <;>
    simp only [applyPrim, stTrans, fd_want_recv, fd_stop_recv, fd_may_recv, fd_cant_recv,
      fd_done_recv, fd_want_send, fd_stop_send, fd_may_send, fd_cant_send, fd_stop_both] <;>
    first
      | (split
         · rfl
         · exact casTail_state ..)
      | rfl

theorem runPrims_cons (p : Prim) (ps : List Prim) (n : Nat) (e : Eng) :
    runPrims (p :: ps) n e = runPrims ps n (applyPrim p n e) := rfl

theorem runPrims_bound (ps : List Prim) (n : Nat) (e : Eng) (hb : e.fd.state < 256) :
    (runPrims ps n e).fd.state < 256 := by
  induction ps generalizing e with
  | nil => exact hb
  | cons p ps ih =>
    rw [runPrims_cons]
    exact ih _ (by rw [applyPrim_state]; exact stTrans_bound p _ hb)

theorem runPrims_invPA (ps : List Prim) (n : Nat) (e : Eng)
    (hb : e.fd.state < 256) (hpa : invPA e.fd.state = true) :
    invPA (runPrims ps n e).fd.state = true := by
  induction ps generalizing e with
  | nil => exact hpa
  | cons p ps ih =>
    rw [runPrims_cons]
    exact ih _ (by rw [applyPrim_state]; exact stTrans_bound p _ hb)
      (by rw [applyPrim_state]; exact stTrans_invPA p _ hb hpa)

theorem runPrims_invR (ps : List Prim) (n : Nat) (e : Eng)
    (hm : Prim.may_recv ∉ ps) (hb : e.fd.state < 256) (hr : invR e.fd.state = true) :
    invR (runPrims ps n e).fd.state = true := by
  induction ps generalizing e with
  | nil => exact hr
  | cons p ps ih =>
    have hp : p ≠ Prim.may_recv := fun h => hm (by simp [h])
    have hm' : Prim.may_recv ∉ ps := fun h => hm (by simp [h])
    rw [runPrims_cons]
    exact ih (applyPrim p n e) hm' (by rw [applyPrim_state]; exact stTrans_bound p _ hb)
      (by rw [applyPrim_state]; exact stTrans_invR p hp _ hb hr)

theorem runPrims_invW (ps : List Prim) (n : Nat) (e : Eng)
    (hm : Prim.may_send ∉ ps) (hb : e.fd.state < 256) (hw : invW e.fd.state = true) :
    invW (runPrims ps n e).fd.state = true := by
  induction ps generalizing e with
  | nil => exact hw
  | cons p ps ih =>
    have hp : p ≠ Prim.may_send := fun h => hm (by simp [h])
    have hm' : Prim.may_send ∉ ps := fun h => hm (by simp [h])
    rw [runPrims_cons]
    exact ih (applyPrim p n e) hm' (by rw [applyPrim_state]; exact stTrans_bound p _ hb)
      (by rw [applyPrim_state]; exact stTrans_invW p hp _ hb hw)

/-- C1 counterexample: the claim's invariant `POLLED ⇒ ACTIVE ∧ ¬READY`
does not hold between primitive calls.  From the all-zero state,
`fd_want_recv` then `fd_may_recv` leaves the state word at
`POLLED_R|ACTIVE_R|READY_R`, where POLLED_R and READY_R hold
together (`fd_may_recv` ORs in READY_R without touching the polled
bit). -/
theorem c1_counterexample :
    fdInv (runPrims [Prim.want_recv, Prim.may_recv] 7 eng0).fd.state = false := by decide

/-- C1, amended: after any sequence of transition primitives starting
from the all-zero state, the state word satisfies `POLLED_R ⇒ ACTIVE_R`
and `POLLED_W ⇒ ACTIVE_W`; the claim's stronger `POLLED ⇒ ACTIVE ∧
¬READY` additionally holds in the read direction whenever the sequence
contains no `fd_may_recv`, and in the write direction whenever it
contains no `fd_may_send`. -/
theorem c1_polled_invariant (ps : List Prim) (n : Nat) :
    invPA (runPrims ps n eng0).fd.state = true ∧
      (Prim.may_recv ∉ ps → invR (runPrims ps n eng0).fd.state = true) ∧
      (Prim.may_send ∉ ps → invW (runPrims ps n eng0).fd.state = true) :=
  ⟨runPrims_invPA ps n eng0 (by decide) (by decide),
   fun hm => runPrims_invR ps n eng0 hm (by decide) (by decide),
   fun hm => runPrims_invW ps n eng0 hm (by decide) (by decide)⟩

/-- C1 witness: the amended invariant evaluated on the concrete
sequence `want_recv; cant_recv` (which contains neither may
primitive). -/
theorem c1_polled_invariant_witness :
    invPA (runPrims [Prim.want_recv, Prim.cant_recv] 7 eng0).fd.state = true ∧
      invR (runPrims [Prim.want_recv, Prim.cant_recv] 7 eng0).fd.state = true ∧
      invW (runPrims [Prim.want_recv, Prim.cant_recv] 7 eng0).fd.state = true :=
  ⟨(c1_polled_invariant [Prim.want_recv, Prim.cant_recv] 7).1,
   (c1_polled_invariant [Prim.want_recv, Prim.cant_recv] 7).2.1 (by decide),
   (c1_polled_invariant [Prim.want_recv, Prim.cant_recv] 7).2.2 (by decide)⟩

theorem fd_update_cache_matches (e : Eng) :
    (fd_update_cache e).fd.inCache = fd_cache_needed (fd_update_cache e).fd.state := rfl

theorem casTail_cache (n old nw pollMask : Nat) (e : Eng) :
    (casTail n old nw pollMask e).fd.inCache = fd_cache_needed (casTail n old nw pollMask e).fd.state :=
  rfl

theorem applyPrim_cache (p : Prim) (n : Nat) (e : Eng)
    (h : e.fd.inCache = fd_cache_needed e.fd.state) :
    (applyPrim p n e).fd.inCache = fd_cache_needed (applyPrim p n e).fd.state := by
  cases p <;>
    simp only [applyPrim, fd_want_recv, fd_stop_recv, fd_may_recv, fd_cant_recv,
      fd_done_recv, fd_want_send, fd_stop_send, fd_may_send, fd_cant_send, fd_stop_both] <;>
    first
      | (split
         · exact h
         · exact casTail_cache ..)
      | rfl

/-- C2: at every quiescent point, cache membership coincides with
`(ACTIVE_R ∧ READY_R) ∨ (ACTIVE_W ∧ READY_W)` on the state word:
every transition primitive ends by reconciling the cache through
`fd_update_cache`, and a primitive that returns early leaves both the
state word and the cache membership untouched. -/
theorem c2_cache_membership (ps : List Prim) (n : Nat) :
    (runPrims ps n eng0).fd.inCache = fd_cache_needed (runPrims ps n eng0).fd.state := by
  have h : ∀ (qs : List Prim) (e : Eng), e.fd.inCache = fd_cache_needed e.fd.state →
      (runPrims qs n e).fd.inCache = fd_cache_needed (runPrims qs n e).fd.state := by
    intro qs
    induction qs with
    | nil => exact fun e h => h
    | cons p qs ih =>
      intro e he
      rw [runPrims_cons]
      exact ih _ (applyPrim_cache p n e he)
  exact h ps eng0 (by decide)

theorem tbit_pow (k i : Nat) : Nat.testBit (2 ^ k) i = decide (i = k) := by
  rw [Nat.testBit_two_pow]
  exact decide_eq_decide.mpr ⟨Eq.symm, Eq.symm⟩

theorem tbit1 (i : Nat) : Nat.testBit 1 i = decide (i = 0) := by
  have h := tbit_pow 0 i
  simpa using h

theorem tbit2 (i : Nat) : Nat.testBit 2 i = decide (i = 1) := by
  have h := tbit_pow 1 i
  norm_num at h
  exact h

theorem tbit32 (i : Nat) : Nat.testBit 32 i = decide (i = 5) := by
  have h := tbit_pow 5 i
  norm_num at h
  exact h

/-- Two bytes agreeing on bits 0..7 are equal on all bits. -/
theorem testBit_eq_of_lt_256 (a b : Nat) (ha : a < 256) (hb : b < 256)
    (h8 : ∀ k, k < 8 → a.testBit k = b.testBit k) : ∀ k, a.testBit k = b.testBit k := by
  intro k
  by_cases hk : k < 8
  · exact h8 k hk
  · have hle : (256 : Nat) ≤ 2 ^ k := by
      calc (256 : Nat) = 2 ^ 8 := by norm_num
        _ ≤ 2 ^ k := Nat.pow_le_pow_right (by norm_num) (Nat.le_of_not_lt hk)
    rw [Nat.testBit_lt_two_pow (Nat.lt_of_lt_of_le ha hle),
      Nat.testBit_lt_two_pow (Nat.lt_of_lt_of_le hb hle)]

theorem updt_fd_polling_updtCalls (n : Nat) (e : Eng) :
    (updt_fd_polling n e).updtCalls = e.updtCalls + 1 := by
  simp only [updt_fd_polling]
  split <;> rfl

theorem casTail_updtCalls (n old nw pollMask : Nat) (e : Eng) :
    (casTail n old nw pollMask e).updtCalls
      = e.updtCalls + (if (old ^^^ nw) &&& pollMask ≠ 0 then 1 else 0) := by
  simp only [casTail]
  split
  · exact updt_fd_polling_updtCalls ..
  · rfl

set_option maxRecDepth 8192 in
theorem want_recv_new_formula : ∀ s, s < 256 → s &&& FD_EV_ACTIVE_R = 0 →
    want_recv_new s
      = (s ||| FD_EV_ACTIVE_R) ||| (if s &&& FD_EV_READY_R = 0 then FD_EV_POLLED_R else 0) := by
  decide

set_option maxRecDepth 8192 in
theorem want_recv_new_lt : ∀ s, s < 256 → want_recv_new s < 256 := by
  decide

set_option maxRecDepth 8192 in
theorem want_recv_new_frame : ∀ s, s < 256 → ∀ k, k < 8 → k ≠ 0 → k ≠ 2 →
    (want_recv_new s).testBit k = s.testBit k := by
  decide

/-- C3: `fd_want_recv` is a no-op when ACTIVE_R is already set;
otherwise it sets ACTIVE_R, additionally sets POLLED_R exactly when
READY_R is clear, leaves every other bit of the state word unchanged,
and invokes `updt_fd_polling` exactly when the POLLED_R bit changed.
`fd_insert` followed by `fd_want_recv` on an all-zero slot yields
read state `POLLED_R|ACTIVE_R`, with the FD enqueued once in the
update list and absent from the cache. -/
theorem c3_want_recv (n : Nat) (e : Eng) (hb : e.fd.state < 256) :
    (e.fd.state &&& FD_EV_ACTIVE_R ≠ 0 → fd_want_recv n e = e) ∧
    (e.fd.state &&& FD_EV_ACTIVE_R = 0 →
      (fd_want_recv n e).fd.state
          = (e.fd.state ||| FD_EV_ACTIVE_R) |||
            (if e.fd.state &&& FD_EV_READY_R = 0 then FD_EV_POLLED_R else 0) ∧
      (∀ k, k ≠ 0 → k ≠ 2 → ((fd_want_recv n e).fd.state).testBit k = e.fd.state.testBit k) ∧
      (fd_want_recv n e).updtCalls
          = e.updtCalls +
            (if (e.fd.state ^^^ (fd_want_recv n e).fd.state) &&& FD_EV_POLLED_R ≠ 0 then 1
             else 0)) ∧
    (fd_want_recv n (fd_insert 1 eng0)).fd.state = (FD_EV_POLLED_R ||| FD_EV_ACTIVE_R) ∧
    (fd_want_recv n (fd_insert 1 eng0)).fd_updt = [n] ∧
    (fd_want_recv n (fd_insert 1 eng0)).fd_nbupdt = 1 ∧
    (fd_want_recv n (fd_insert 1 eng0)).fd.inCache = false := by
  refine ⟨?_, ?_, rfl, rfl, rfl, ?incache⟩
  case incache =>
    have h1 : (fd_want_recv n (fd_insert 1 eng0)).fd.inCache
        = fd_cache_needed (fd_want_recv n (fd_insert 1 eng0)).fd.state := by
      unfold fd_want_recv
      rw [if_neg (by decide : ¬((fd_insert 1 eng0).fd.state &&& FD_EV_ACTIVE_R ≠ 0))]
      exact casTail_cache ..
    have h2 : (fd_want_recv n (fd_insert 1 eng0)).fd.state = 5 := rfl
    rw [h1, h2]
    decide
  · intro h
    unfold fd_want_recv
    rw [if_pos h]
  · intro h
    have hg : ¬(e.fd.state &&& FD_EV_ACTIVE_R ≠ 0) := by simp [h]
    have hst : (fd_want_recv n e).fd.state = want_recv_new e.fd.state := by
      unfold fd_want_recv
      rw [if_neg hg]
      exact casTail_state ..
    have hform := want_recv_new_formula e.fd.state hb h
    refine ⟨hst.trans hform, ?_, ?_⟩
    · intro k hk0 hk2
      rw [hst]
      by_cases hk : k < 8
      · exact want_recv_new_frame e.fd.state hb k hk hk0 hk2
      · have hle : (256 : Nat) ≤ 2 ^ k := by
          calc (256 : Nat) = 2 ^ 8 := by norm_num
            _ ≤ 2 ^ k := Nat.pow_le_pow_right (by norm_num) (Nat.le_of_not_lt hk)
        rw [Nat.testBit_lt_two_pow (Nat.lt_of_lt_of_le (want_recv_new_lt e.fd.state hb) hle),
          Nat.testBit_lt_two_pow (Nat.lt_of_lt_of_le hb hle)]
    · rw [hst]
      unfold fd_want_recv
      rw [if_neg hg]
      exact casTail_updtCalls ..

/-- C3 witness: the general clause applied to a fresh slot (ACTIVE_R
clear), evaluated at FD 7. -/
theorem c3_want_recv_witness :
    eng0.fd.state &&& FD_EV_ACTIVE_R = 0 ∧
    (fd_want_recv 7 eng0).fd.state
      = (eng0.fd.state ||| FD_EV_ACTIVE_R) |||
        (if eng0.fd.state &&& FD_EV_READY_R = 0 then FD_EV_POLLED_R else 0) :=
  ⟨by decide, ((c3_want_recv 7 eng0 (by decide)).2.1 (by decide)).1⟩

set_option maxRecDepth 8192 in
theorem done_recv_new_formula : ∀ s, s < 256 →
    s &&& (FD_EV_POLLED_R ||| FD_EV_READY_R) = (FD_EV_POLLED_R ||| FD_EV_READY_R) →
    done_recv_new s
      = (s &&& compl8 FD_EV_READY_R) |||
        (if s &&& FD_EV_ACTIVE_R ≠ 0 then FD_EV_POLLED_R else 0) := by
  decide

set_option maxRecDepth 8192 in
theorem done_recv_new_lt : ∀ s, s < 256 → done_recv_new s < 256 := by
  decide

set_option maxRecDepth 8192 in
theorem done_recv_new_frame : ∀ s, s < 256 → ∀ k, k < 8 →
    k ≠ 0 → k ≠ 1 → (done_recv_new s).testBit k = s.testBit k := by
  decide

set_option maxRecDepth 8192 in
theorem done_recv_new_active : ∀ s, s < 256 →
    done_recv_new s &&& FD_EV_ACTIVE_R = s &&& FD_EV_ACTIVE_R := by
  decide

set_option maxRecDepth 8192 in
theorem done_recv_new_poll : ∀ s, s < 256 →
    s &&& (FD_EV_POLLED_R ||| FD_EV_READY_R) = (FD_EV_POLLED_R ||| FD_EV_READY_R) →
    (s ^^^ done_recv_new s) &&& FD_EV_POLLED_R = 0 := by
  decide

/-- C4: `fd_done_recv` is a no-op unless both POLLED_R and READY_R are
set; when they are, it clears READY_R, keeps POLLED_R set whenever
ACTIVE_R is set (ACTIVE_R itself is unchanged), leaves every other bit
of the state word unchanged, and invokes `updt_fd_polling` exactly when
the POLLED_R bit changed — which, POLLED_R being set on entry and in
the result, is never. -/
theorem c4_done_recv (n : Nat) (e : Eng) (hb : e.fd.state < 256) :
    (e.fd.state &&& (FD_EV_POLLED_R ||| FD_EV_READY_R) ≠ (FD_EV_POLLED_R ||| FD_EV_READY_R) →
      fd_done_recv n e = e) ∧
    (e.fd.state &&& (FD_EV_POLLED_R ||| FD_EV_READY_R) = (FD_EV_POLLED_R ||| FD_EV_READY_R) →
      (fd_done_recv n e).fd.state
          = (e.fd.state &&& compl8 FD_EV_READY_R) |||
            (if e.fd.state &&& FD_EV_ACTIVE_R ≠ 0 then FD_EV_POLLED_R else 0) ∧
      (fd_done_recv n e).fd.state &&& FD_EV_ACTIVE_R = e.fd.state &&& FD_EV_ACTIVE_R ∧
      (∀ k, k ≠ 0 → k ≠ 1 → ((fd_done_recv n e).fd.state).testBit k = e.fd.state.testBit k) ∧
      (fd_done_recv n e).updtCalls
          = e.updtCalls +
            (if (e.fd.state ^^^ (fd_done_recv n e).fd.state) &&& FD_EV_POLLED_R ≠ 0 then 1
             else 0) ∧
      (fd_done_recv n e).updtCalls = e.updtCalls) := by
  constructor
  · intro h
    unfold fd_done_recv
    rw [if_pos h]
  · intro h
    have hg : ¬(e.fd.state &&& (FD_EV_POLLED_R ||| FD_EV_READY_R)
        ≠ (FD_EV_POLLED_R ||| FD_EV_READY_R)) := by simp [h]
    have hst : (fd_done_recv n e).fd.state = done_recv_new e.fd.state := by
      unfold fd_done_recv
      rw [if_neg hg]
      exact casTail_state ..
    have hcalls : (fd_done_recv n e).updtCalls
        = e.updtCalls +
          (if (e.fd.state ^^^ done_recv_new e.fd.state) &&& FD_EV_POLLED_R ≠ 0 then 1 else 0) := by
      unfold fd_done_recv
      rw [if_neg hg]
      exact casTail_updtCalls ..
    refine ⟨hst.trans (done_recv_new_formula e.fd.state hb h),
      by rw [hst]; exact done_recv_new_active e.fd.state hb, ?_, ?_, ?_⟩
    · intro k hk0 hk1
      rw [hst]
      by_cases hk : k < 8
      · exact done_recv_new_frame e.fd.state hb k hk hk0 hk1
      · have hle : (256 : Nat) ≤ 2 ^ k := by
          calc (256 : Nat) = 2 ^ 8 := by norm_num
            _ ≤ 2 ^ k := Nat.pow_le_pow_right (by norm_num) (Nat.le_of_not_lt hk)
        rw [Nat.testBit_lt_two_pow (Nat.lt_of_lt_of_le (done_recv_new_lt e.fd.state hb) hle),
          Nat.testBit_lt_two_pow (Nat.lt_of_lt_of_le hb hle)]
    · rw [hst]
      exact hcalls
    · rw [hcalls, done_recv_new_poll e.fd.state hb h]
      simp

/-- C4 witness: starting from state `POLLED_R|ACTIVE_R|READY_R`
(reached by `want_recv; may_recv` on a fresh FD), `fd_done_recv`
clears READY_R, keeps POLLED_R, and enqueues nothing. -/
theorem c4_done_recv_witness :
    (fd_may_recv 7 (fd_want_recv 7 eng0)).fd.state &&& (FD_EV_POLLED_R ||| FD_EV_READY_R)
        = (FD_EV_POLLED_R ||| FD_EV_READY_R) ∧
    (fd_done_recv 7 (fd_may_recv 7 (fd_want_recv 7 eng0))).fd.state
      = ((fd_may_recv 7 (fd_want_recv 7 eng0)).fd.state &&& compl8 FD_EV_READY_R) |||
        (if (fd_may_recv 7 (fd_want_recv 7 eng0)).fd.state &&& FD_EV_ACTIVE_R ≠ 0
         then FD_EV_POLLED_R else 0) ∧
    (fd_done_recv 7 (fd_may_recv 7 (fd_want_recv 7 eng0))).updtCalls
      = (fd_may_recv 7 (fd_want_recv 7 eng0)).updtCalls :=
  ⟨by decide,
   ((c4_done_recv 7 (fd_may_recv 7 (fd_want_recv 7 eng0)) (by decide)).2 (by decide)).1,
   ((c4_done_recv 7 (fd_may_recv 7 (fd_want_recv 7 eng0)) (by decide)).2 (by decide)).2.2.2.2⟩

/-- C5: `fd_may_recv` only ORs READY_R into the state word — every
other bit (in particular POLLED_R and the whole write nibble) is
unchanged — and it touches neither the update list, its counter, the
thread's update-mask bit, nor `updt_fd_polling` (ghost counter);
symmetrically `fd_may_send` only ORs in READY_W. -/
theorem c5_may_frame (n : Nat) (e : Eng) (k : Nat) :
    (fd_may_recv n e).fd.state = e.fd.state ||| FD_EV_READY_R ∧
    (k ≠ 1 → ((fd_may_recv n e).fd.state).testBit k = e.fd.state.testBit k) ∧
    (fd_may_recv n e).fd_updt = e.fd_updt ∧
    (fd_may_recv n e).fd_nbupdt = e.fd_nbupdt ∧
    (fd_may_recv n e).fd.update_bit = e.fd.update_bit ∧
    (fd_may_recv n e).updtCalls = e.updtCalls ∧
    (fd_may_send n e).fd.state = e.fd.state ||| FD_EV_READY_W ∧
    (k ≠ 5 → ((fd_may_send n e).fd.state).testBit k = e.fd.state.testBit k) ∧
    (fd_may_send n e).fd_updt = e.fd_updt ∧
    (fd_may_send n e).fd_nbupdt = e.fd_nbupdt ∧
    (fd_may_send n e).fd.update_bit = e.fd.update_bit ∧
    (fd_may_send n e).updtCalls = e.updtCalls := by
  refine ⟨rfl, ?_, rfl, rfl, rfl, rfl, rfl, ?_, rfl, rfl, rfl, rfl⟩
  · intro hk
    show (e.fd.state ||| FD_EV_READY_R).testBit k = e.fd.state.testBit k
    rw [Nat.testBit_or]
    have h2 : Nat.testBit FD_EV_READY_R k = false := by
      rw [show FD_EV_READY_R = 2 from rfl, tbit2, decide_eq_false_iff_not]
      exact hk
    rw [h2, Bool.or_false]
  · intro hk
    show (e.fd.state ||| FD_EV_READY_W).testBit k = e.fd.state.testBit k
    rw [Nat.testBit_or]
    have h2 : Nat.testBit FD_EV_READY_W k = false := by
      rw [show FD_EV_READY_W = 32 from rfl, tbit32, decide_eq_false_iff_not]
      exact hk
    rw [h2, Bool.or_false]

/-- C5 witness: the frame property evaluated at FD 9, the state word
`POLLED_R|ACTIVE_R` and bit 0 (the POLLED_R bit). -/
theorem c5_may_frame_witness :
    ((fd_may_recv 9 (fd_want_recv 9 eng0)).fd.state).testBit 0
      = ((fd_want_recv 9 eng0).fd.state).testBit 0 ∧
    ((fd_may_send 9 (fd_want_recv 9 eng0)).fd.state).testBit 0
      = ((fd_want_recv 9 eng0).fd.state).testBit 0 :=
  ⟨(c5_may_frame 9 (fd_want_recv 9 eng0) 0).2.1 (by decide),
   (c5_may_frame 9 (fd_want_recv 9 eng0) 0).2.2.2.2.2.2.2.1 (by decide)⟩

theorem fd_may_recv_ev (n : Nat) (e : Eng) : (fd_may_recv n e).fd.ev = e.fd.ev := rfl

theorem fd_may_send_ev (n : Nat) (e : Eng) : (fd_may_send n e).fd.ev = e.fd.ev := rfl

theorem fd_may_recv_calls (n : Nat) (e : Eng) :
    (fd_may_recv n e).mayRecvCalls = e.mayRecvCalls + 1 ∧
      (fd_may_recv n e).maySendCalls = e.maySendCalls := ⟨rfl, rfl⟩

theorem fd_may_send_calls (n : Nat) (e : Eng) :
    (fd_may_send n e).maySendCalls = e.maySendCalls + 1 ∧
      (fd_may_send n e).mayRecvCalls = e.mayRecvCalls := ⟨rfl, rfl⟩

/-- C7: `fd_update_events` replaces the non-sticky bits of `ev` with
the reported events (`ev' = (ev AND FD_POLL_STICKY) OR evts`), then
invokes `fd_may_recv` exactly when the resulting `ev` intersects
IN/HUP/ERR and `fd_may_send` exactly when it intersects OUT/ERR
(observed through the ghost invocation counters). -/
theorem c7_update_events (n evts : Nat) (e : Eng) :
    (fd_update_events n evts e).fd.ev = (e.fd.ev &&& FD_POLL_STICKY) ||| evts ∧
    (fd_update_events n evts e).mayRecvCalls
      = e.mayRecvCalls +
        (if ((e.fd.ev &&& FD_POLL_STICKY) ||| evts) &&&
            (FD_POLL_IN ||| FD_POLL_HUP ||| FD_POLL_ERR) ≠ 0 then 1 else 0) ∧
    (fd_update_events n evts e).maySendCalls
      = e.maySendCalls +
        (if ((e.fd.ev &&& FD_POLL_STICKY) ||| evts) &&&
            (FD_POLL_OUT ||| FD_POLL_ERR) ≠ 0 then 1 else 0) := by
  simp only [fd_update_events]
  dsimp only [fd_may_recv, fd_may_send, fd_update_cache]
  split_ifs <;> exact ⟨rfl, rfl, rfl⟩

/-- Multi-thread view of the update machinery: per-FD `update_mask`
bitmap of threads, and each thread's `fd_updt` array with its
`fd_nbupdt` counter. -/
structure PollUpd where
  update_mask : Nat → Nat
  fd_updt : Nat → List Nat
  fd_nbupdt : Nat → Nat

/-- Initial update machinery: empty masks and lists. -/
def pollUpd0 : PollUpd :=
  { update_mask := fun _ => 0, fd_updt := fun _ => [], fd_nbupdt := fun _ => 0 }

/-- Model of `updt_fd_polling(fd)` executed by thread `tid`: atomic
bit-test-and-set of `update_mask[fd]` at bit `tid`; only the first
setter appends `fd` to its own update list and bumps its counter. -/
def updt_fd_polling_t (tid fd : Nat) (s : PollUpd) : PollUpd :=
  if (s.update_mask fd).testBit tid then s
  else
    { update_mask := fun f => if f = fd then s.update_mask fd ||| (1 <<< tid) else s.update_mask f
      fd_updt := fun t => if t = tid then s.fd_updt tid ++ [fd] else s.fd_updt t
      fd_nbupdt := fun t => if t = tid then s.fd_nbupdt tid + 1 else s.fd_nbupdt t }

/-- Run a sequence of `(tid, fd)` calls to `updt_fd_polling`. -/
def runUpdt (calls : List (Nat × Nat)) (s : PollUpd) : PollUpd :=
  calls.foldl (fun a c => updt_fd_polling_t c.1 c.2 a) s

/-- Invariant tying update-mask bits to update-list multiplicity:
thread `t`'s list holds `f` exactly once when bit `t` of
`update_mask[f]` is set, and not at all otherwise. -/
def updtInv (s : PollUpd) : Prop :=
  ∀ f t, (s.fd_updt t).count f = if (s.update_mask f).testBit t then 1 else 0

theorem updt_fd_polling_t_inv (tid fd : Nat) (s : PollUpd) (h : updtInv s) :
    updtInv (updt_fd_polling_t tid fd s) := by
  unfold updt_fd_polling_t
  split
  · exact h
  · next hbit =>
    have hb : (s.update_mask fd).testBit tid = false := by simpa using hbit
    intro f t
    simp only []
    by_cases ht : t = tid <;> by_cases hf : f = fd
    · subst ht; subst hf
      have h0 := h f t
      rw [hb] at h0
      simp only [Bool.false_eq_true, if_false] at h0
      simp [List.count_append, h0, Nat.testBit_or, Nat.one_shiftLeft, Nat.testBit_two_pow_self]
    · subst ht
      have h0 := h f t
      simp [List.count_append, hf, h0]
    · subst hf
      have h0 := h f t
      have htid : ¬tid = t := fun h2 => ht h2.symm
      simp [ht, Nat.testBit_or, Nat.one_shiftLeft, Nat.testBit_two_pow, htid, h0]
    · simp [ht, hf, h f t]

theorem runUpdt_inv (calls : List (Nat × Nat)) (s : PollUpd) (h : updtInv s) :
    updtInv (runUpdt calls s) := by
  induction calls generalizing s with
  | nil => exact h
  | cons c cs ih => exact ih _ (updt_fd_polling_t_inv c.1 c.2 s h)

/-- C6: `updt_fd_polling` is idempotent per thread per poll cycle.
A call from a thread whose `update_mask` bit is clear sets the bit,
appends the FD once to that thread's update list and bumps
`fd_nbupdt` by one, leaving other threads' lists alone; any further
call from the same thread before the bit is cleared changes nothing.
Consequently an FD occurs at most once in a thread's update list
after any sequence of calls from the initial state. -/
theorem c6_updt_idempotent (tid fd : Nat) (s : PollUpd) :
    ((s.update_mask fd).testBit tid = false →
      (updt_fd_polling_t tid fd s).fd_updt tid = s.fd_updt tid ++ [fd] ∧
      (updt_fd_polling_t tid fd s).fd_nbupdt tid = s.fd_nbupdt tid + 1 ∧
      ((updt_fd_polling_t tid fd s).update_mask fd).testBit tid = true ∧
      (∀ t, t ≠ tid → (updt_fd_polling_t tid fd s).fd_updt t = s.fd_updt t)) ∧
    ((s.update_mask fd).testBit tid = true → updt_fd_polling_t tid fd s = s) ∧
    (∀ calls : List (Nat × Nat), ∀ f t,
      ((runUpdt calls pollUpd0).fd_updt t).count f ≤ 1) := by
  refine ⟨?_, ?_, ?_⟩
  · intro hbit
    unfold updt_fd_polling_t
    rw [if_neg (by simp [hbit])]
    refine ⟨by simp, by simp, ?_, ?_⟩
    · simp [Nat.testBit_or, Nat.one_shiftLeft, Nat.testBit_two_pow_self]
    · intro t ht
      simp [ht]
  · intro hbit
    unfold updt_fd_polling_t
    rw [if_pos hbit]
  · intro calls f t
    have h := runUpdt_inv calls pollUpd0 (by intro f t; simp [pollUpd0]) f t
    rw [h]
    split <;> simp

/-- C6 witness: from the empty machinery, a first call by thread 0 on
FD 4 appends once; checked together with the at-most-once bound for
the two-call sequence where thread 0 enqueues FD 4 twice. -/
theorem c6_updt_idempotent_witness :
    (updt_fd_polling_t 0 4 pollUpd0).fd_updt 0 = [4] ∧
    ((runUpdt [(0, 4), (0, 4)] pollUpd0).fd_updt 0).count 4 ≤ 1 :=
  ⟨by
    have h := ((c6_updt_idempotent 0 4 pollUpd0).1 (by simp [pollUpd0])).1
    simpa [pollUpd0] using h,
   (c6_updt_idempotent 0 4 pollUpd0).2.2 [(0, 4), (0, 4)] 4 0⟩

/-- Fuel-bounded scan for the lowest set bit (1-based). -/
def ffsAux : Nat → Nat → Nat
  | 0, _ => 0
  | fuel + 1, n => if n % 2 = 1 then 1 else if n = 0 then 0 else ffsAux fuel (n / 2) + 1

/-- Modelled from the spec: `my_ffsl` (common/standard.h, not among the
sources) returns the 1-based position of the lowest set bit of an
`unsigned long`; 64 bits of fuel cover every representable mask. -/
def my_ffsl (n : Nat) : Nat := ffsAux 64 n

/-- The C expression `thread_mask - 1` evaluated on `unsigned long`
(wraps to `2^64 - 1` at zero). -/
def tm_dec (tm : Nat) : Nat := (tm + (2 ^ 64 - 1)) % 2 ^ 64

/-- The global ready cache `fd_cache` and the per-thread caches
`fd_cache_local[]`, by member lists. -/
structure Caches where
  fd_cache : List Nat
  fd_cache_local : Nat → List Nat

/-- All caches empty. -/
def caches0 : Caches := { fd_cache := [], fd_cache_local := fun _ => [] }

/-- Modelled from the spec: `fd_add_to_fd_list` (fd.c, not among the
sources) ensures the FD is present in the ready list exactly once. -/
def fd_add_to_fd_list (l : List Nat) (fd : Nat) : List Nat :=
  if fd ∈ l then l else l ++ [fd]

/-- Modelled from the spec: `fd_rm_from_fd_list` (fd.c, not among the
sources) ensures the FD is absent from the ready list. -/
def fd_rm_from_fd_list (l : List Nat) (fd : Nat) : List Nat :=
  l.filter (fun x => x ≠ fd)

/-- Model of `fd_alloc_cache_entry(fd)`: route by homing — when
`thread_mask & (thread_mask - 1)` is zero, add to
`fd_cache_local[my_ffsl(thread_mask) - 1]`, else to the global
`fd_cache`. -/
def fd_alloc_cache_entry (tm fd : Nat) (c : Caches) : Caches :=
  if tm &&& tm_dec tm = 0 then
    { c with fd_cache_local := fun t =>
        if t = my_ffsl tm - 1 then fd_add_to_fd_list (c.fd_cache_local (my_ffsl tm - 1)) fd
        else c.fd_cache_local t }
  else { c with fd_cache := fd_add_to_fd_list c.fd_cache fd }

/-- Model of `fd_release_cache_entry(fd)`: same routing, removing the entry. -/
def fd_release_cache_entry (tm fd : Nat) (c : Caches) : Caches :=
  if tm &&& tm_dec tm = 0 then
    { c with fd_cache_local := fun t =>
        if t = my_ffsl tm - 1 then fd_rm_from_fd_list (c.fd_cache_local (my_ffsl tm - 1)) fd
        else c.fd_cache_local t }
  else { c with fd_cache := fd_rm_from_fd_list c.fd_cache fd }

theorem ffsAux_pow : ∀ t fuel, t < fuel → ffsAux fuel (2 ^ t) = t + 1 := by
  intro t
  induction t with
  | zero =>
    intro fuel h
    cases fuel with
    | zero => omega
    | succ f => simp [ffsAux]
  | succ t ih =>
    intro fuel h
    cases fuel with
    | zero => omega
    | succ f =>
      have h2 : (2 : Nat) ^ (t + 1) % 2 = 0 := by
        rw [pow_succ]
        simp [Nat.mul_mod_left]
      have hne : (2 : Nat) ^ (t + 1) ≠ 0 := (pow_pos (by norm_num : (0 : Nat) < 2) (t + 1)).ne'
      have hdiv : (2 : Nat) ^ (t + 1) / 2 = 2 ^ t := by
        rw [pow_succ]
        exact Nat.mul_div_cancel _ (by norm_num)
      simp [ffsAux, h2, hne, hdiv, ih f (by omega)]

theorem pow2_land_pred (t : Nat) : 2 ^ t &&& (2 ^ t - 1) = 0 := by
  apply Nat.eq_of_testBit_eq
  intro i
  rw [Nat.testBit_and, Nat.testBit_two_pow, Nat.testBit_two_pow_sub_one, Nat.zero_testBit]
  by_cases h : t = i
  · subst h
    simp
  · simp [h]

theorem tm_dec_eq (tm : Nat) (h1 : 1 ≤ tm) (h2 : tm ≤ 2 ^ 64) : tm_dec tm = tm - 1 := by
  unfold tm_dec
  have hsplit : tm + (2 ^ 64 - 1) = (tm - 1) + 2 ^ 64 := by omega
  rw [hsplit, Nat.add_mod_right]
  exact Nat.mod_eq_of_lt (by omega)

/-- A nonzero value with `x &&& (x-1) = 0` is a power of two. -/
theorem land_pred_pow2 : ∀ tm : Nat, tm ≠ 0 → tm &&& (tm - 1) = 0 → ∃ k, tm = 2 ^ k := by
  intro tm
  induction tm using Nat.strong_induction_on with
  | _ tm ih =>
    intro hne hand
    rcases Nat.even_or_odd tm with he | ho
    · obtain ⟨c, hc⟩ := he
      have hc2 : tm = 2 * c := by omega
      have hcne : c ≠ 0 := by omega
      have hdiv1 : tm / 2 = c := by omega
      have hdiv2 : (tm - 1) / 2 = c - 1 := by omega
      have hsub : c &&& (c - 1) = 0 := by
        apply Nat.eq_of_testBit_eq
        intro i
        rw [Nat.zero_testBit, Nat.testBit_and, ← hdiv2, ← hdiv1,
          ← Nat.testBit_add_one, ← Nat.testBit_add_one, ← Nat.testBit_and, hand,
          Nat.zero_testBit]
      obtain ⟨k, hk⟩ := ih c (by omega) hcne hsub
      exact ⟨k + 1, by rw [hc2, hk, pow_succ]; ring⟩
    · obtain ⟨c, hc⟩ := ho
      by_cases hc0 : c = 0
      · exact ⟨0, by omega⟩
      · exfalso
        obtain ⟨j, hj⟩ := Nat.ne_zero_implies_bit_true hc0
        have hdiv1 : tm / 2 = c := by omega
        have hdiv2 : (tm - 1) / 2 = c := by omega
        have : (tm &&& (tm - 1)).testBit (j + 1) = true := by
          rw [Nat.testBit_and, Nat.testBit_add_one, Nat.testBit_add_one, hdiv1, hdiv2, hj]
          rfl
        rw [hand, Nat.zero_testBit] at this
        exact Bool.false_ne_true this

/-- C8 counterexample: `thread_mask = 0` does not have exactly one bit
set, yet `fd_alloc_cache_entry` does not add the FD to the global
cache — `0 & (0 - 1)` is zero on `unsigned long`, so the code takes
the thread-local branch. -/
theorem c8_counterexample : (fd_alloc_cache_entry 0 7 caches0).fd_cache = [] := by
  unfold fd_alloc_cache_entry
  rw [if_pos (Nat.zero_and _)]
  rfl

/-- C8, amended: when `thread_mask` is a single bit `2^t` (t < 64) the
FD is added to / removed from `fd_cache_local[t]`, leaving the global
cache and every other local cache untouched; for every other nonzero
`thread_mask` below `2^64` the FD is added to / removed from the
global `fd_cache`, leaving all local caches untouched.  (A zero
`thread_mask` also takes the local branch, see the counterexample.) -/
theorem c8_cache_routing (fd : Nat) (c : Caches) :
    (∀ t, t < 64 →
      (fd_alloc_cache_entry (2 ^ t) fd c).fd_cache_local t
          = fd_add_to_fd_list (c.fd_cache_local t) fd ∧
      (fd_alloc_cache_entry (2 ^ t) fd c).fd_cache = c.fd_cache ∧
      (∀ t2, t2 ≠ t → (fd_alloc_cache_entry (2 ^ t) fd c).fd_cache_local t2
          = c.fd_cache_local t2) ∧
      (fd_release_cache_entry (2 ^ t) fd c).fd_cache_local t
          = fd_rm_from_fd_list (c.fd_cache_local t) fd ∧
      (fd_release_cache_entry (2 ^ t) fd c).fd_cache = c.fd_cache ∧
      (∀ t2, t2 ≠ t → (fd_release_cache_entry (2 ^ t) fd c).fd_cache_local t2
          = c.fd_cache_local t2)) ∧
    (∀ tm, tm ≠ 0 → (∀ k, tm ≠ 2 ^ k) → tm < 2 ^ 64 →
      (fd_alloc_cache_entry tm fd c).fd_cache = fd_add_to_fd_list c.fd_cache fd ∧
      (∀ t2, (fd_alloc_cache_entry tm fd c).fd_cache_local t2 = c.fd_cache_local t2) ∧
      (fd_release_cache_entry tm fd c).fd_cache = fd_rm_from_fd_list c.fd_cache fd ∧
      (∀ t2, (fd_release_cache_entry tm fd c).fd_cache_local t2 = c.fd_cache_local t2)) := by
  constructor
  · intro t ht
    have hone : (1 : Nat) ≤ 2 ^ t := Nat.one_le_two_pow
    have hle : (2 : Nat) ^ t ≤ 2 ^ 64 := Nat.pow_le_pow_right (by norm_num) (by omega)
    have hcond : 2 ^ t &&& tm_dec (2 ^ t) = 0 := by
      rw [tm_dec_eq _ hone hle]
      exact pow2_land_pred t
    have hidx : my_ffsl (2 ^ t) - 1 = t := by
      unfold my_ffsl
      rw [ffsAux_pow t 64 ht]
      omega
    unfold fd_alloc_cache_entry fd_release_cache_entry
    rw [if_pos hcond, if_pos hcond, hidx]
    refine ⟨by simp, rfl, ?_, by simp, rfl, ?_⟩
    · intro t2 ht2
      simp [ht2]
    · intro t2 ht2
      simp [ht2]
  · intro tm hne hnp hlt
    have hcond : ¬(tm &&& tm_dec tm = 0) := by
      rw [tm_dec_eq tm (by omega) (by omega)]
      intro h0
      obtain ⟨k, hk⟩ := land_pred_pow2 tm hne h0
      exact hnp k hk
    unfold fd_alloc_cache_entry fd_release_cache_entry
    rw [if_neg hcond, if_neg hcond]
    exact ⟨rfl, fun _ => rfl, rfl, fun _ => rfl⟩

/-- C8 witness: a single-homed FD (`thread_mask = 1`, thread 0) lands
in local cache 0 and the global cache stays empty; a shared FD
(`thread_mask = 3`) lands in the global cache. -/
theorem c8_cache_routing_witness :
    (fd_alloc_cache_entry 1 7 caches0).fd_cache_local 0 = [7] ∧
    (fd_alloc_cache_entry 1 7 caches0).fd_cache = [] ∧
    (fd_alloc_cache_entry 3 7 caches0).fd_cache = [7] := by
  have h1 := (c8_cache_routing 7 caches0).1 0 (by norm_num)
  have h3 : ∀ k, (3 : Nat) ≠ 2 ^ k := by
    intro k
    match k with
    | 0 => decide
    | 1 => decide
    | k + 2 =>
      have h4 : (4 : Nat) ≤ 2 ^ (k + 2) := by
        calc (4 : Nat) = 2 ^ 2 := by norm_num
          _ ≤ 2 ^ (k + 2) := Nat.pow_le_pow_right (by norm_num) (by omega)
      omega
  have h2 := (c8_cache_routing 7 caches0).2 3 (by norm_num) h3 (by norm_num)
  refine ⟨?_, ?_, ?_⟩
  · have := h1.1
    norm_num [pow_zero] at this
    rw [this]
    decide
  · have := h1.2.1
    norm_num [pow_zero] at this
    rw [this]
    rfl
  · rw [h2.1]
    decide

/-- Listener states used by proto_uxst.c. -/
inductive LiState where
  | LI_INIT
  | LI_READY
  | LI_FULL
deriving DecidableEq

/-- The listener fields involved in the full/drain logic.  `rdEnabled`
models the read-event registration of the listener's own FD
(`EV_FD_SET`/`EV_FD_CLR(fd, DIR_RD)`; the poller macros are not among
the sources — modelled from the spec's stop_recv/want_recv reading). -/
structure Listener where
  state : LiState
  nbconn : Nat
  maxconn : Nat
  rdEnabled : Bool
deriving DecidableEq

/-- Outcome of one successful `accept()` iteration in
`uxst_event_accept`. -/
inductive AcceptResult where
  | rejected (l : Listener)
  | accepted (l : Listener)
deriving DecidableEq

/-- One iteration of `uxst_event_accept` after `accept()` returned a
connection: an already-full listener shoots the connection and
returns; otherwise the session is set up, `nbconn` is incremented,
and when it reaches `maxconn` the listener's read events are cleared
and its state set to LI_FULL. -/
def uxst_accept_step (l : Listener) : AcceptResult :=
  if l.maxconn ≤ l.nbconn then .rejected l
  else
    let l1 := { l with nbconn := l.nbconn + 1 }
    if l1.maxconn ≤ l1.nbconn then
      .accepted { l1 with rdEnabled := false, state := .LI_FULL }
    else .accepted l1

/-- The session-release tail of `process_uxst_stats`: decrement the
listener's `nbconn`; if the listener was LI_FULL and is now below
`maxconn`, re-enable read events and return to LI_READY. -/
def process_uxst_stats_release (l : Listener) : Listener :=
  let l1 := { l with nbconn := l.nbconn - 1 }
  if l1.state = LiState.LI_FULL ∧ l1.nbconn < l1.maxconn then
    { l1 with rdEnabled := true, state := .LI_READY }
  else l1

/-- C9: whenever `uxst_event_accept` accepts a connection into a
session and `nbconn` reaches or exceeds `maxconn`, the listener's
read events are disabled and its state becomes LI_FULL; and whenever
`process_uxst_stats` releases a session so that an LI_FULL listener
drops strictly below `maxconn`, read events are re-enabled and the
state returns to LI_READY. -/
theorem c9_listener_full_drain (l : Listener) :
    (∀ l2, uxst_accept_step l = .accepted l2 → l2.maxconn ≤ l2.nbconn →
      l2.rdEnabled = false ∧ l2.state = LiState.LI_FULL ∧ l2.nbconn = l.nbconn + 1) ∧
    (l.state = LiState.LI_FULL → (process_uxst_stats_release l).nbconn < l.maxconn →
      (process_uxst_stats_release l).rdEnabled = true ∧
        (process_uxst_stats_release l).state = LiState.LI_READY) := by
  constructor
  · intro l2 hacc hfull
    unfold uxst_accept_step at hacc
    simp only [] at hacc
    split at hacc
    · exact absurd hacc (by simp)
    · next hroom =>
      split at hacc
      · next hfull2 =>
        cases hacc
        exact ⟨rfl, rfl, rfl⟩
      · next hnot =>
        cases hacc
        exact absurd hfull hnot
  · intro hstate hlt
    unfold process_uxst_stats_release at hlt ⊢
    try simp only [] at hlt
    try simp only []
    split at hlt
    · next hcond =>
      rw [if_pos hcond]
      exact ⟨rfl, rfl⟩
    · next hcond =>
      exact absurd ⟨hstate, hlt⟩ hcond

/-- C9 witness: a listener with `maxconn = 1` becomes LI_FULL with
reads disabled after accepting one connection, and drains back to
LI_READY with reads re-enabled after releasing it. -/
theorem c9_listener_full_drain_witness :
    ((process_uxst_stats_release
        { state := .LI_FULL, nbconn := 1, maxconn := 1, rdEnabled := false }).rdEnabled = true ∧
      (process_uxst_stats_release
        { state := .LI_FULL, nbconn := 1, maxconn := 1, rdEnabled := false }).state
          = LiState.LI_READY) ∧
    uxst_accept_step { state := .LI_READY, nbconn := 0, maxconn := 1, rdEnabled := true }
      = .accepted { state := .LI_FULL, nbconn := 1, maxconn := 1, rdEnabled := false } :=
  ⟨(c9_listener_full_drain
      { state := .LI_FULL, nbconn := 1, maxconn := 1, rdEnabled := false }).2
      (by decide) (by decide),
   by decide⟩

/-- Model of `hap_fd_set(fd, evts)`: OR the bit `fd % 32` into word `fd / 32`
of an `unsigned int` bitmap array (words are 32 bits). -/
def hap_fd_set (fd : Nat) (evts : Nat → Nat) : Nat → Nat :=
  fun i => if i = fd / 32 then evts i ||| (1 <<< (fd % 32)) else evts i

/-- Model of `hap_fd_clr(fd, evts)`: AND word `fd / 32` with the 32-bit
complement of bit `fd % 32`. -/
def hap_fd_clr (fd : Nat) (evts : Nat → Nat) : Nat → Nat :=
  fun i => if i = fd / 32 then evts i &&& ((2 ^ 32 - 1) ^^^ (1 <<< (fd % 32))) else evts i

/-- Model of `hap_fd_isset(fd, evts)`: word `fd / 32` masked with bit
`fd % 32`. -/
def hap_fd_isset (fd : Nat) (evts : Nat → Nat) : Nat :=
  evts (fd / 32) &&& (1 <<< (fd % 32))

/-- C10: the fd-set helpers form a correct bitmap — `hap_fd_set`
makes `hap_fd_isset` non-zero, `hap_fd_clr` makes it zero, and both
leave `hap_fd_isset` of every other descriptor unchanged. -/
theorem c10_hap_fd_bitmap (fd fd2 : Nat) (evts : Nat → Nat) :
    hap_fd_isset fd (hap_fd_set fd evts) ≠ 0 ∧
    hap_fd_isset fd (hap_fd_clr fd evts) = 0 ∧
    (fd2 ≠ fd →
      hap_fd_isset fd2 (hap_fd_set fd evts) = hap_fd_isset fd2 evts ∧
      hap_fd_isset fd2 (hap_fd_clr fd evts) = hap_fd_isset fd2 evts) := by
  have hk32 : fd % 32 < 32 := Nat.mod_lt _ (by norm_num)
  refine ⟨?_, ?_, ?_⟩
  · have hbit : (hap_fd_isset fd (hap_fd_set fd evts)).testBit (fd % 32) = true := by
      unfold hap_fd_isset hap_fd_set
      rw [if_pos rfl, Nat.testBit_and, Nat.testBit_or, Nat.one_shiftLeft,
        Nat.testBit_two_pow_self]
      simp
    intro h0
    rw [h0, Nat.zero_testBit] at hbit
    exact Bool.false_ne_true hbit
  · unfold hap_fd_isset hap_fd_clr
    rw [if_pos rfl]
    apply Nat.eq_of_testBit_eq
    intro i
    rw [Nat.zero_testBit, Nat.testBit_and, Nat.testBit_and, Nat.testBit_xor,
      Nat.one_shiftLeft, Nat.testBit_two_pow, Nat.testBit_two_pow_sub_one]
    by_cases hi : fd % 32 = i
    · subst hi
      simp [hk32]
    · simp [hi]
  · intro hne
    by_cases hw : fd2 / 32 = fd / 32
    · have hm : fd2 % 32 ≠ fd % 32 := by omega
      constructor
      · unfold hap_fd_isset hap_fd_set
        rw [hw, if_pos rfl]
        apply Nat.eq_of_testBit_eq
        intro i
        rw [Nat.testBit_and, Nat.testBit_or, Nat.testBit_and,
          Nat.one_shiftLeft, Nat.one_shiftLeft, Nat.testBit_two_pow, Nat.testBit_two_pow]
        by_cases hi : fd2 % 32 = i
        · subst hi
          have hm2 : ¬(fd % 32 = fd2 % 32) := fun h => hm h.symm
          simp [hm2]
        · simp [hi]
      · unfold hap_fd_isset hap_fd_clr
        rw [hw, if_pos rfl]
        apply Nat.eq_of_testBit_eq
        intro i
        rw [Nat.testBit_and, Nat.testBit_and, Nat.testBit_and, Nat.testBit_xor,
          Nat.one_shiftLeft, Nat.one_shiftLeft, Nat.testBit_two_pow, Nat.testBit_two_pow,
          Nat.testBit_two_pow_sub_one]
        by_cases hi : fd2 % 32 = i
        · subst hi
          have h32 : fd2 % 32 < 32 := Nat.mod_lt _ (by norm_num)
          have hm2 : ¬(fd % 32 = fd2 % 32) := fun h => hm h.symm
          simp [hm2, h32]
        · simp [hi]
    · constructor
      · unfold hap_fd_isset hap_fd_set
        rw [if_neg hw]
      · unfold hap_fd_isset hap_fd_clr
        rw [if_neg hw]

/-- C10 witness: bit behaviour at descriptors 33 and 65 (same bit
index in different words) over the all-zero bitmap. -/
theorem c10_hap_fd_bitmap_witness :
    hap_fd_isset 33 (hap_fd_set 33 (fun _ => 0)) ≠ 0 ∧
    hap_fd_isset 33 (hap_fd_clr 33 (fun _ => 0)) = 0 ∧
    hap_fd_isset 65 (hap_fd_set 33 (fun _ => 0)) = hap_fd_isset 65 (fun _ => 0) :=
  ⟨(c10_hap_fd_bitmap 33 65 (fun _ => 0)).1,
   (c10_hap_fd_bitmap 33 65 (fun _ => 0)).2.1,
   ((c10_hap_fd_bitmap 33 65 (fun _ => 0)).2.2 (by decide)).1⟩
